import Mathlib

/-!
# Formal model of the Market Radar virtual trading engine

A shallow embedding of the portfolio-ledger core of `app.py`
(Executive Market Radar 19.2):

* the persistence helpers `load_json` / `save_json` (app.py lines 64-75),
  modelled at the document level: a file either holds a parseable document
  (`FileContent.good`), holds unparseable bytes (`FileContent.bad`), or is
  absent (`none` in the file-system map).  `json.dump` of a serializable
  document always produces text that `json.load` parses back to a
  structurally equal document, so a save stores `good data`;
* the ticker normalization `final_ticker` (app.py lines 423-425);
* the EXECUTE block of the Trading Floor tab (app.py lines 434-457),
  as a pure step `execute_trade` on one segment's portfolio plus a wrapper
  `executeStep` on the whole session state (`trading` for both segments and
  the `transactions` list of line 79).

Python `float` arithmetic is modelled as exact rational arithmetic over `ℚ`
(the float literal `0.001` becomes `1/1000`), integers as `ℤ`, strings as
`List Char`, and a Python `dict` as an association list with unique keys
(lookup `lookupKey`, assignment `setKey`, `del` as `delKey`).
-/

/-- A market segment, the keys of `st.session_state.trading`
    (`"india"` / `"global"`, app.py line 78 and the radio at line 412). -/
inductive Segment where
  | india
  | globalMkt
deriving DecidableEq, Repr

/-- Trade side, the `Action` selectbox (app.py line 432). -/
inductive Side where
  | BUY
  | SELL
deriving DecidableEq, Repr

/-- The two rejection outcomes of the EXECUTE block: `st.error("No Funds")`
    (app.py line 449) and `st.error("No Shares")` (app.py line 457). -/
inductive TradeError where
  | NoFunds
  | NoShares
deriving DecidableEq, Repr

/-- Ticker symbols, Python strings modelled as character lists. -/
abbrev Ticker := List Char

/-- One holding: the dict `{'qty': ..., 'avg_price': ...}` of app.py
    lines 444/446. -/
structure Position where
  qty : ℤ
  avg_price : ℚ
deriving DecidableEq, Repr

/-- `port['holdings']`: a Python dict from ticker to position, modelled as an
    association list whose keys are unique for states reachable from the
    defaults. -/
abbrev Holdings := List (Ticker × Position)

/-- One segment's portfolio `{"cash": ..., "holdings": {...}}`
    (app.py line 78). -/
structure Portfolio where
  cash : ℚ
  holdings : Holdings
deriving DecidableEq, Repr

/-- Dict lookup `port['holdings'][final_ticker]` (returns `none` when the
    membership test `final_ticker in port['holdings']` fails). -/
def lookupKey (k : Ticker) : Holdings → Option Position
  | [] => none
  | (k', v) :: rest => if k = k' then some v else lookupKey k rest

/-- Dict assignment `port['holdings'][final_ticker] = {...}`: replaces the
    entry in place if the key is present, otherwise appends it. -/
def setKey (k : Ticker) (v : Position) : Holdings → Holdings
  | [] => [(k, v)]
  | (k', v') :: rest =>
      if k = k' then (k, v) :: rest else (k', v') :: setKey k v rest

/-- Dict deletion `del port['holdings'][final_ticker]` (app.py line 454). -/
def delKey (k : Ticker) : Holdings → Holdings
  | [] => []
  | (k', v') :: rest => if k = k' then rest else (k', v') :: delKey k rest

/-- The character list of the suffix `".NS"` used by the normalization at
    app.py line 424. -/
def nsSuffix : Ticker := ['.', 'N', 'S']

/-- app.py lines 424-425:
    `if m_key == "india" and not t_sym.endswith(".NS") and len(t_sym) > 0:`
    `    final_ticker = f"{t_sym}.NS"`
    `else: final_ticker = t_sym`.
    `t_sym` is the (already upper-cased) entered ticker. -/
def final_ticker (m_key : Segment) (t_sym : Ticker) : Ticker :=
  if m_key = Segment.india ∧ nsSuffix.isSuffixOf t_sym = false ∧ 0 < t_sym.length
  then t_sym ++ nsSuffix
  else t_sym

/-- The EXECUTE block of app.py lines 434-457, restricted to one segment's
    portfolio.  `lp` is the quoted price, `qty` the chosen quantity.
    `val = lp * qty`, `fee = val * 0.001`.  A rejected trade produces
    `Except.error` and the portfolio is handed back unchanged by the
    wrapper `executeStep` below, exactly as the Python branches mutate
    nothing before `st.error`. -/
def execute_trade (port : Portfolio) (act : Side) (tkr : Ticker)
    (qty : ℤ) (lp : ℚ) : Except TradeError Portfolio :=
  let val : ℚ := lp * (qty : ℚ)
  let fee : ℚ := val * (1 / 1000)
  match act with
  | Side.BUY =>
      if port.cash ≥ val + fee then
        let holdings' :=
          match lookupKey tkr port.holdings with
          | some old =>
              let new_q : ℤ := old.qty + qty
              let new_avg : ℚ := ((old.qty : ℚ) * old.avg_price + val) / (new_q : ℚ)
              setKey tkr ⟨new_q, new_avg⟩ port.holdings
          | none => setKey tkr ⟨qty, lp⟩ port.holdings
        Except.ok { cash := port.cash - (val + fee), holdings := holdings' }
      else Except.error TradeError.NoFunds
  | Side.SELL =>
      match lookupKey tkr port.holdings with
      | some pos =>
          if pos.qty ≥ qty then
            let new_q : ℤ := pos.qty - qty
            let holdings' :=
              if new_q = 0 then delKey tkr port.holdings
              else setKey tkr ⟨new_q, pos.avg_price⟩ port.holdings
            Except.ok { cash := port.cash + (val - fee), holdings := holdings' }
          else Except.error TradeError.NoShares
      | none => Except.error TradeError.NoShares

/-- One record of the transaction-log document shape
    (`transactions.json`, loaded at app.py line 79). -/
structure Txn where
  date : String
  side : Side
  symbol : Ticker
  qty : ℤ
  price : ℚ
  fee : ℚ
deriving DecidableEq, Repr

/-- The ledger-relevant session state: `st.session_state.trading` (both
    segments) and `st.session_state.transactions` (app.py lines 78-79). -/
structure AppState where
  india : Portfolio
  globalMkt : Portfolio
  transactions : List Txn
deriving DecidableEq, Repr

/-- `port = st.session_state.trading[m_key]` (app.py line 415). -/
def getPort (s : AppState) : Segment → Portfolio
  | Segment.india => s.india
  | Segment.globalMkt => s.globalMkt

/-- Writing the mutated portfolio back into the session state. -/
def setPort (s : AppState) : Segment → Portfolio → AppState
  | Segment.india, p => { s with india := p }
  | Segment.globalMkt, p => { s with globalMkt := p }

/-- The whole EXECUTE click (app.py lines 423-457): normalize the entered
    ticker, run the trade on the selected segment's portfolio, and leave the
    session state untouched when the trade is rejected.  The `transactions`
    list is not touched on either path — the EXECUTE block of app.py never
    appends to `st.session_state.transactions`. -/
def executeStep (s : AppState) (m_key : Segment) (act : Side) (t_sym : Ticker)
    (qty : ℤ) (lp : ℚ) : AppState × Option TradeError :=
  match execute_trade (getPort s m_key) act (final_ticker m_key t_sym) qty lp with
  | Except.ok p' => (setPort s m_key p', none)
  | Except.error e => (s, some e)

/-- The default initial trading state of app.py lines 78-79:
    `{"india": {"cash": 1000000.0, "holdings": {}}, "global": {"cash": 100000.0, "holdings": {}}}`
    and an empty transaction log. -/
def initial_trading : AppState :=
  { india := { cash := 1000000, holdings := [] }
    globalMkt := { cash := 100000, holdings := [] }
    transactions := [] }

/-- Content of a persisted file: a parseable document or unparseable bytes. -/
inductive FileContent (α : Type) where
  | good (data : α)
  | bad
deriving DecidableEq, Repr

/-- The durable store: a map from filename to file content, `none` when the
    file does not exist (`os.path.exists` false). -/
abbrev FileSys (α : Type) := String → Option (FileContent α)

/-- app.py lines 64-71: return the parsed document when the file exists and
    parses, and the supplied default when the file is absent or the bare
    `except:` catches the parse failure. -/
def load_json (fs : FileSys α) (filename : String) (default : α) : α :=
  match fs filename with
  | some (FileContent.good data) => data
  | some FileContent.bad => default
  | none => default

/-- app.py lines 73-75: `json.dump(data, f)` over a file opened with `'w'`
    truncates and fully replaces the file's previous content. -/
def save_json (fs : FileSys α) (filename : String) (data : α) : FileSys α :=
  fun f => if f = filename then some (FileContent.good data) else fs f

instance {ε α : Type} [DecidableEq ε] [DecidableEq α] : DecidableEq (Except ε α)
  | Except.ok a, Except.ok b =>
      if h : a = b then isTrue (by rw [h])
      else isFalse (by intro hh; cases hh; exact h rfl)
  | Except.ok _, Except.error _ => isFalse (by intro h; cases h)
  | Except.error _, Except.ok _ => isFalse (by intro h; cases h)
  | Except.error e, Except.error e' =>
      if h : e = e' then isTrue (by rw [h])
      else isFalse (by intro hh; cases hh; exact h rfl)

/-- The keys of a holdings dict. -/
def keysOf (h : Holdings) : List Ticker := h.map Prod.fst

/-- The portfolio invariant of the spec (cash nonnegative, every held
    position has positive quantity) together with the dict representation
    invariant (unique keys), which every state reachable from the default
    empty holdings satisfies. -/
def Invariant (p : Portfolio) : Prop :=
  0 ≤ p.cash ∧ (keysOf p.holdings).Nodup ∧
  ∀ k pos, lookupKey k p.holdings = some pos → 0 < pos.qty

theorem lookupKey_cons_self (k : Ticker) (v : Position) (tl : Holdings) :
    lookupKey k ((k, v) :: tl) = some v := by
  rw [lookupKey, if_pos rfl]

theorem lookupKey_cons_ne (k k₀ : Ticker) (v : Position) (tl : Holdings)
    (hk : k ≠ k₀) : lookupKey k ((k₀, v) :: tl) = lookupKey k tl := by
  rw [lookupKey, if_neg hk]

theorem setKey_cons_self (k : Ticker) (v v₀ : Position) (tl : Holdings) :
    setKey k v ((k, v₀) :: tl) = (k, v) :: tl := by
  rw [setKey, if_pos rfl]

theorem setKey_cons_ne (k k₀ : Ticker) (v v₀ : Position) (tl : Holdings)
    (hk : k ≠ k₀) : setKey k v ((k₀, v₀) :: tl) = (k₀, v₀) :: setKey k v tl := by
  rw [setKey, if_neg hk]

theorem delKey_cons_self (k : Ticker) (v₀ : Position) (tl : Holdings) :
    delKey k ((k, v₀) :: tl) = tl := by
  rw [delKey, if_pos rfl]

theorem delKey_cons_ne (k k₀ : Ticker) (v₀ : Position) (tl : Holdings)
    (hk : k ≠ k₀) : delKey k ((k₀, v₀) :: tl) = (k₀, v₀) :: delKey k tl := by
  rw [delKey, if_neg hk]

theorem lookupKey_setKey_self (k : Ticker) (v : Position) (h : Holdings) :
    lookupKey k (setKey k v h) = some v := by
  induction h with
  | nil => rw [setKey, lookupKey_cons_self]
  | cons hd tl ih =>
      obtain ⟨k₀, v₀⟩ := hd
      by_cases hk : k = k₀
      · subst hk
        rw [setKey_cons_self, lookupKey_cons_self]
      · rw [setKey_cons_ne _ _ _ _ _ hk, lookupKey_cons_ne _ _ _ _ hk, ih]

theorem lookupKey_setKey_ne (k k' : Ticker) (v : Position) (h : Holdings)
    (hne : k' ≠ k) : lookupKey k' (setKey k v h) = lookupKey k' h := by
  induction h with
  | nil => rw [setKey, lookupKey_cons_ne _ _ _ _ hne, lookupKey]
  | cons hd tl ih =>
      obtain ⟨k₀, v₀⟩ := hd
      by_cases hk : k = k₀
      · subst hk
        rw [setKey_cons_self, lookupKey_cons_ne _ _ _ _ hne,
          lookupKey_cons_ne _ _ _ _ hne]
      · rw [setKey_cons_ne _ _ _ _ _ hk]
        by_cases hk' : k' = k₀
        · subst hk'
          rw [lookupKey_cons_self, lookupKey_cons_self]
        · rw [lookupKey_cons_ne _ _ _ _ hk', lookupKey_cons_ne _ _ _ _ hk', ih]

theorem lookupKey_delKey_ne (k k' : Ticker) (h : Holdings)
    (hne : k' ≠ k) : lookupKey k' (delKey k h) = lookupKey k' h := by
  induction h with
  | nil => rw [delKey]
  | cons hd tl ih =>
      obtain ⟨k₀, v₀⟩ := hd
      by_cases hk : k = k₀
      · subst hk
        rw [delKey_cons_self, lookupKey_cons_ne _ _ _ _ hne]
      · rw [delKey_cons_ne _ _ _ _ hk]
        by_cases hk' : k' = k₀
        · subst hk'
          rw [lookupKey_cons_self, lookupKey_cons_self]
        · rw [lookupKey_cons_ne _ _ _ _ hk', lookupKey_cons_ne _ _ _ _ hk', ih]

theorem lookupKey_eq_none_of_not_mem (k : Ticker) (h : Holdings)
    (hk : k ∉ keysOf h) : lookupKey k h = none := by
  induction h with
  | nil => rw [lookupKey]
  | cons hd tl ih =>
      obtain ⟨k₀, v₀⟩ := hd
      simp only [keysOf, List.map_cons, List.mem_cons, not_or] at hk
      rw [lookupKey_cons_ne _ _ _ _ hk.1]
      exact ih hk.2

theorem lookupKey_delKey_self (k : Ticker) (h : Holdings)
    (hnd : (keysOf h).Nodup) : lookupKey k (delKey k h) = none := by
  induction h with
  | nil => rw [delKey, lookupKey]
  | cons hd tl ih =>
      obtain ⟨k₀, v₀⟩ := hd
      simp only [keysOf, List.map_cons, List.nodup_cons] at hnd
      by_cases hk : k = k₀
      · subst hk
        rw [delKey_cons_self]
        exact lookupKey_eq_none_of_not_mem _ _ hnd.1
      · rw [delKey_cons_ne _ _ _ _ hk, lookupKey_cons_ne _ _ _ _ hk]
        exact ih hnd.2

theorem mem_keys_setKey (a k : Ticker) (v : Position) (h : Holdings) :
    a ∈ keysOf (setKey k v h) ↔ a = k ∨ a ∈ keysOf h := by
  induction h with
  | nil =>
      rw [setKey]
      simp [keysOf]
  | cons hd tl ih =>
      obtain ⟨k₀, v₀⟩ := hd
      by_cases hk : k = k₀
      · subst hk
        rw [setKey_cons_self]
        simp only [keysOf, List.map_cons, List.mem_cons]
        tauto
      · rw [setKey_cons_ne _ _ _ _ _ hk]
        simp only [keysOf, List.map_cons, List.mem_cons]
        simp only [keysOf] at ih
        rw [ih]
        tauto

theorem nodup_setKey (k : Ticker) (v : Position) (h : Holdings)
    (hnd : (keysOf h).Nodup) : (keysOf (setKey k v h)).Nodup := by
  induction h with
  | nil =>
      rw [setKey]
      simp [keysOf]
  | cons hd tl ih =>
      obtain ⟨k₀, v₀⟩ := hd
      simp only [keysOf, List.map_cons, List.nodup_cons] at hnd
      by_cases hk : k = k₀
      · subst hk
        rw [setKey_cons_self]
        simp only [keysOf, List.map_cons, List.nodup_cons]
        exact ⟨hnd.1, hnd.2⟩
      · rw [setKey_cons_ne _ _ _ _ _ hk]
        simp only [keysOf, List.map_cons, List.nodup_cons]
        refine ⟨fun hmem => ?_, ih hnd.2⟩
        rcases (mem_keys_setKey k₀ k v tl).mp hmem with h₁ | h₂
        · exact hk h₁.symm
        · exact hnd.1 h₂

theorem delKey_sublist (k : Ticker) (h : Holdings) :
    List.Sublist (delKey k h) h := by
  induction h with
  | nil =>
      rw [delKey]
  | cons hd tl ih =>
      obtain ⟨k₀, v₀⟩ := hd
      by_cases hk : k = k₀
      · subst hk
        rw [delKey_cons_self]
        exact List.sublist_cons_self (k, v₀) tl
      · rw [delKey_cons_ne _ _ _ _ hk]
        exact List.Sublist.cons₂ (k₀, v₀) ih

theorem nodup_delKey (k : Ticker) (h : Holdings)
    (hnd : (keysOf h).Nodup) : (keysOf (delKey k h)).Nodup :=
  hnd.sublist (List.Sublist.map Prod.fst (delKey_sublist k h))

/-- C8: for every key and default, `load_json` returns the previously
    persisted parsed document when the file exists and parses, and returns
    the supplied default — it is a total function, so no exception reaches
    the caller — when the file is absent or its content fails to parse. -/
theorem load_json_contract {α : Type} (fs : FileSys α) (filename : String)
    (default d : α) :
    (fs filename = none → load_json fs filename default = default) ∧
    (fs filename = some FileContent.bad → load_json fs filename default = default) ∧
    (fs filename = some (FileContent.good d) → load_json fs filename default = d) := by
  refine ⟨fun h => ?_, fun h => ?_, fun h => ?_⟩ <;> simp [load_json, h]

/-- Witness for C8 at a concrete key, default and document: an absent file
    and a corrupt file both yield the default, a parseable file yields its
    document. -/
theorem load_json_contract_witness :
    load_json (fun _ => none : FileSys ℕ) "trading_engine.json" 7 = 7 ∧
    load_json (fun _ => some FileContent.bad : FileSys ℕ) "trading_engine.json" 7 = 7 ∧
    load_json (fun _ => some (FileContent.good 3) : FileSys ℕ) "trading_engine.json" 7 = 3 :=
  ⟨(load_json_contract (fun _ => none) "trading_engine.json" 7 3).1 rfl,
   (load_json_contract (fun _ => some FileContent.bad) "trading_engine.json" 7 3).2.1 rfl,
   (load_json_contract (fun _ => some (FileContent.good 3)) "trading_engine.json" 7 3).2.2 rfl⟩

/-- C9: for every document `data` and key, `save_json` followed by
    `load_json` of the same key yields a document structurally equal to
    `data`, and the save fully replaces whatever the store previously held
    at that key (the second conjunct holds for every prior file system). -/
theorem save_then_load_roundtrip {α : Type} (fs : FileSys α) (filename : String)
    (data default : α) :
    load_json (save_json fs filename data) filename default = data ∧
    save_json fs filename data filename = some (FileContent.good data) := by
  constructor <;> simp [load_json, save_json]

/-- C10: in the india segment the holdings key used by the EXECUTE block is
    the entered (upper-cased) non-empty ticker with `".NS"` appended exactly
    when it does not already end in `".NS"`; the global segment uses the
    ticker as entered; hence `"RELIANCE"` and `"RELIANCE.NS"` normalize to
    the same india key, and every india key ends in `".NS"`. -/
theorem india_ticker_normalization :
    (∀ t : Ticker, final_ticker Segment.globalMkt t = t) ∧
    (∀ t : Ticker, t ≠ [] →
        nsSuffix.isSuffixOf (final_ticker Segment.india t) = true) ∧
    (∀ t : Ticker, t ≠ [] → nsSuffix.isSuffixOf t = false →
        final_ticker Segment.india t = t ++ nsSuffix) ∧
    (∀ t : Ticker, nsSuffix.isSuffixOf t = true → final_ticker Segment.india t = t) ∧
    final_ticker Segment.india "RELIANCE".toList
      = final_ticker Segment.india "RELIANCE.NS".toList := by
  refine ⟨fun t => ?_, fun t ht => ?_, fun t ht hsf => ?_, fun t hsf => ?_, ?_⟩
  · simp [final_ticker]
  · by_cases hsf : nsSuffix.isSuffixOf t = false
    · rw [final_ticker, if_pos ⟨rfl, hsf, List.length_pos.mpr ht⟩]
      simp [List.isSuffixOf_iff_suffix]
    · rw [final_ticker, if_neg (fun hc => hsf hc.2.1)]
      simpa using hsf
  · rw [final_ticker, if_pos ⟨rfl, hsf, List.length_pos.mpr ht⟩]
  · rw [final_ticker, if_neg (fun hc => by rw [hsf] at hc; exact absurd hc.2.1 (by simp))]
  · decide

/-- Witness for C10 at concrete tickers: `"TSLA"` is untouched in the global
    segment, `"RELIANCE"` gains the `".NS"` suffix in the india segment, and
    `"RELIANCE.NS"` is left as entered. -/
theorem india_ticker_normalization_witness :
    final_ticker Segment.globalMkt "TSLA".toList = "TSLA".toList ∧
    nsSuffix.isSuffixOf (final_ticker Segment.india "RELIANCE".toList) = true ∧
    final_ticker Segment.india "RELIANCE".toList = "RELIANCE".toList ++ nsSuffix ∧
    final_ticker Segment.india "RELIANCE.NS".toList = "RELIANCE.NS".toList :=
  ⟨india_ticker_normalization.1 "TSLA".toList,
   india_ticker_normalization.2.1 "RELIANCE".toList (by decide),
   india_ticker_normalization.2.2.1 "RELIANCE".toList (by decide) (by decide),
   india_ticker_normalization.2.2.2.1 "RELIANCE.NS".toList (by decide)⟩

theorem execute_trade_buy_reject (port : Portfolio) (tkr : Ticker) (qty : ℤ) (lp : ℚ)
    (hlt : port.cash < lp * (qty : ℚ) + lp * (qty : ℚ) * (1 / 1000)) :
    execute_trade port Side.BUY tkr qty lp = Except.error TradeError.NoFunds := by
  simp only [execute_trade]
  rw [if_neg (not_le.mpr hlt)]

theorem execute_trade_buy_held (port : Portfolio) (tkr : Ticker) (qty : ℤ) (lp : ℚ)
    (old : Position)
    (hge : lp * (qty : ℚ) + lp * (qty : ℚ) * (1 / 1000) ≤ port.cash)
    (hold : lookupKey tkr port.holdings = some old) :
    execute_trade port Side.BUY tkr qty lp =
      Except.ok
        { cash := port.cash - (lp * (qty : ℚ) + lp * (qty : ℚ) * (1 / 1000)),
          holdings :=
            setKey tkr
              ⟨old.qty + qty,
               ((old.qty : ℚ) * old.avg_price + lp * (qty : ℚ)) / ((old.qty + qty : ℤ) : ℚ)⟩
              port.holdings } := by
  simp only [execute_trade]
  rw [if_pos hge, hold]

theorem execute_trade_buy_fresh (port : Portfolio) (tkr : Ticker) (qty : ℤ) (lp : ℚ)
    (hge : lp * (qty : ℚ) + lp * (qty : ℚ) * (1 / 1000) ≤ port.cash)
    (hnone : lookupKey tkr port.holdings = none) :
    execute_trade port Side.BUY tkr qty lp =
      Except.ok
        { cash := port.cash - (lp * (qty : ℚ) + lp * (qty : ℚ) * (1 / 1000)),
          holdings := setKey tkr ⟨qty, lp⟩ port.holdings } := by
  simp only [execute_trade]
  rw [if_pos hge, hnone]

theorem execute_trade_sell_not_held (port : Portfolio) (tkr : Ticker) (qty : ℤ) (lp : ℚ)
    (hnone : lookupKey tkr port.holdings = none) :
    execute_trade port Side.SELL tkr qty lp = Except.error TradeError.NoShares := by
  simp only [execute_trade]
  rw [hnone]

theorem execute_trade_sell_short (port : Portfolio) (tkr : Ticker) (qty : ℤ) (lp : ℚ)
    (pos : Position)
    (hold : lookupKey tkr port.holdings = some pos)
    (hlt : pos.qty < qty) :
    execute_trade port Side.SELL tkr qty lp = Except.error TradeError.NoShares := by
  simp only [execute_trade]
  rw [hold]
  simp only [ge_iff_le, if_neg (not_le.mpr hlt)]

theorem execute_trade_sell_ok (port : Portfolio) (tkr : Ticker) (qty : ℤ) (lp : ℚ)
    (pos : Position)
    (hold : lookupKey tkr port.holdings = some pos)
    (hge : qty ≤ pos.qty) :
    execute_trade port Side.SELL tkr qty lp =
      Except.ok
        { cash := port.cash + (lp * (qty : ℚ) - lp * (qty : ℚ) * (1 / 1000)),
          holdings :=
            if pos.qty - qty = 0 then delKey tkr port.holdings
            else setKey tkr ⟨pos.qty - qty, pos.avg_price⟩ port.holdings } := by
  simp only [execute_trade]
  rw [hold]
  simp only [ge_iff_le, if_pos hge]

theorem executeStep_ok (s : AppState) (m_key : Segment) (act : Side) (t_sym : Ticker)
    (qty : ℤ) (lp : ℚ) (p' : Portfolio)
    (h : execute_trade (getPort s m_key) act (final_ticker m_key t_sym) qty lp
           = Except.ok p') :
    executeStep s m_key act t_sym qty lp = (setPort s m_key p', none) := by
  simp only [executeStep]
  rw [h]

theorem executeStep_err (s : AppState) (m_key : Segment) (act : Side) (t_sym : Ticker)
    (qty : ℤ) (lp : ℚ) (e : TradeError)
    (h : execute_trade (getPort s m_key) act (final_ticker m_key t_sym) qty lp
           = Except.error e) :
    executeStep s m_key act t_sym qty lp = (s, some e) := by
  simp only [executeStep]
  rw [h]

theorem getPort_setPort_self (s : AppState) (m : Segment) (p : Portfolio) :
    getPort (setPort s m p) m = p := by
  cases m <;> rfl

theorem transactions_setPort (s : AppState) (m : Segment) (p : Portfolio) :
    (setPort s m p).transactions = s.transactions := by
  cases m <;> rfl

/-- C5: for every rejected trade of any error kind, the whole session state
    — cash and holdings of both segments and the transaction log — is
    structurally unchanged by the attempt; no partial mutation is
    observable. -/
theorem rejected_trade_no_mutation (s : AppState) (m : Segment) (act : Side)
    (t : Ticker) (qty : ℤ) (lp : ℚ) (e : TradeError)
    (h : (executeStep s m act t qty lp).2 = some e) :
    (executeStep s m act t qty lp).1 = s := by
  rcases hres : execute_trade (getPort s m) act (final_ticker m t) qty lp with e' | p'
  · rw [executeStep_err s m act t qty lp e' hres]
  · rw [executeStep_ok s m act t qty lp p' hres] at h
    simp at h

/-- Witness for C5: a BUY of 10000 shares at 100 against the default global
    cash of 100000 is rejected and leaves the state exactly as it was. -/
theorem rejected_trade_no_mutation_witness :
    (executeStep initial_trading Segment.globalMkt Side.BUY ['X'] 10000 100).2
      = some TradeError.NoFunds ∧
    (executeStep initial_trading Segment.globalMkt Side.BUY ['X'] 10000 100).1
      = initial_trading := by
  have hr : execute_trade (getPort initial_trading Segment.globalMkt) Side.BUY
      (final_ticker Segment.globalMkt ['X']) 10000 100
      = Except.error TradeError.NoFunds :=
    execute_trade_buy_reject _ _ _ _ (by norm_num [getPort, initial_trading])
  have hh : (executeStep initial_trading Segment.globalMkt Side.BUY ['X'] 10000 100).2
      = some TradeError.NoFunds := by
    rw [executeStep_err _ _ _ _ _ _ _ hr]
  exact ⟨hh, rejected_trade_no_mutation _ _ _ _ _ _ _ hh⟩

/-- C2: a BUY is rejected with the insufficient-funds error — the whole
    state unchanged — exactly when `unit_price*qty + fee` exceeds the
    segment's cash (`fee = unit_price*qty*0.001`); otherwise it succeeds
    all-or-nothing and the new cash is exactly the old cash minus the
    fee-inclusive total cost, so a BUY whose total cost equals the cash
    exactly succeeds. -/
theorem buy_funds_check_and_cash (s : AppState) (m : Segment) (t : Ticker)
    (qty : ℤ) (lp : ℚ) :
    ((getPort s m).cash < lp * (qty : ℚ) + lp * (qty : ℚ) * (1 / 1000) →
       executeStep s m Side.BUY t qty lp = (s, some TradeError.NoFunds)) ∧
    (lp * (qty : ℚ) + lp * (qty : ℚ) * (1 / 1000) ≤ (getPort s m).cash →
       (executeStep s m Side.BUY t qty lp).2 = none ∧
       (getPort (executeStep s m Side.BUY t qty lp).1 m).cash
         = (getPort s m).cash - (lp * (qty : ℚ) + lp * (qty : ℚ) * (1 / 1000))) := by
  constructor
  · intro hlt
    exact executeStep_err _ _ _ _ _ _ _ (execute_trade_buy_reject _ _ _ _ hlt)
  · intro hge
    rcases hl : lookupKey (final_ticker m t) (getPort s m).holdings with _ | old
    · rw [executeStep_ok _ _ _ _ _ _ _ (execute_trade_buy_fresh _ _ _ _ hge hl)]
      exact ⟨rfl, by rw [getPort_setPort_self]⟩
    · rw [executeStep_ok _ _ _ _ _ _ _ (execute_trade_buy_held _ _ _ _ old hge hl)]
      exact ⟨rfl, by rw [getPort_setPort_self]⟩

/-- Witness for C2: the reject branch at the default global portfolio
    (cost 1001000 > cash 100000), and the success branch on an india
    portfolio whose cash 1001 equals the total cost of 10 shares at 100
    exactly, leaving cash 0. -/
theorem buy_funds_check_and_cash_witness :
    executeStep initial_trading Segment.globalMkt Side.BUY ['X'] 10000 100
      = (initial_trading, some TradeError.NoFunds) ∧
    (executeStep ⟨⟨1001, []⟩, ⟨0, []⟩, []⟩ Segment.india Side.BUY ['X'] 10 100).2
      = none ∧
    (getPort (executeStep ⟨⟨1001, []⟩, ⟨0, []⟩, []⟩ Segment.india Side.BUY ['X'] 10 100).1
        Segment.india).cash = 0 := by
  refine ⟨?_, ?_, ?_⟩
  · exact (buy_funds_check_and_cash initial_trading Segment.globalMkt ['X'] 10000 100).1
      (by norm_num [getPort, initial_trading])
  · exact ((buy_funds_check_and_cash ⟨⟨1001, []⟩, ⟨0, []⟩, []⟩ Segment.india ['X'] 10 100).2
      (by norm_num [getPort])).1
  · have h := ((buy_funds_check_and_cash ⟨⟨1001, []⟩, ⟨0, []⟩, []⟩ Segment.india ['X'] 10 100).2
      (by norm_num [getPort])).2
    rw [h]
    norm_num [getPort]

/-- C4: contrary to the spec, no Transaction record is ever appended — the
    EXECUTE block of app.py never writes `st.session_state.transactions`.
    At the failing input (a successful BUY of 10 RELIANCE.NS at 100 from the
    default state) the trade commits — cash is debited to 998999 — yet the
    transaction log is exactly what it was before. -/
theorem no_transaction_appended :
    (executeStep initial_trading Segment.india Side.BUY "RELIANCE".toList 10 100).2
      = none ∧
    (executeStep initial_trading Segment.india Side.BUY "RELIANCE".toList 10 100).1.india.cash
      = 998999 ∧
    (executeStep initial_trading Segment.india Side.BUY "RELIANCE".toList 10 100).1.transactions
      = initial_trading.transactions := by
  have hr := execute_trade_buy_fresh (getPort initial_trading Segment.india)
      (final_ticker Segment.india "RELIANCE".toList) 10 100
      (by norm_num [getPort, initial_trading]) rfl
  rw [executeStep_ok _ _ _ _ _ _ _ hr]
  refine ⟨rfl, ?_, rfl⟩
  norm_num [getPort, setPort, initial_trading]

/-- C3: a SELL fails with the no-shares error — the whole state unchanged —
    when the symbol is not held or the held quantity is below the requested
    quantity; otherwise cash grows by exactly `unit_price*qty - fee`
    (`fee = unit_price*qty*0.001`), the held quantity drops by `qty`, and a
    remaining (still positive-quantity) position keeps its average_price
    unchanged. -/
theorem sell_semantics (s : AppState) (m : Segment) (t : Ticker)
    (qty : ℤ) (lp : ℚ) :
    (lookupKey (final_ticker m t) (getPort s m).holdings = none →
       executeStep s m Side.SELL t qty lp = (s, some TradeError.NoShares)) ∧
    (∀ pos : Position,
       lookupKey (final_ticker m t) (getPort s m).holdings = some pos →
       (pos.qty < qty →
          executeStep s m Side.SELL t qty lp = (s, some TradeError.NoShares)) ∧
       (qty ≤ pos.qty →
          (executeStep s m Side.SELL t qty lp).2 = none ∧
          (getPort (executeStep s m Side.SELL t qty lp).1 m).cash
            = (getPort s m).cash + (lp * (qty : ℚ) - lp * (qty : ℚ) * (1 / 1000)) ∧
          (pos.qty - qty ≠ 0 →
             lookupKey (final_ticker m t)
                 (getPort (executeStep s m Side.SELL t qty lp).1 m).holdings
               = some ⟨pos.qty - qty, pos.avg_price⟩))) := by
  constructor
  · intro hnone
    exact executeStep_err _ _ _ _ _ _ _ (execute_trade_sell_not_held _ _ _ _ hnone)
  · intro pos hl
    constructor
    · intro hlt
      exact executeStep_err _ _ _ _ _ _ _ (execute_trade_sell_short _ _ _ _ pos hl hlt)
    · intro hge
      rw [executeStep_ok _ _ _ _ _ _ _ (execute_trade_sell_ok _ _ _ _ pos hl hge)]
      refine ⟨rfl, by rw [getPort_setPort_self], fun hne => ?_⟩
      rw [getPort_setPort_self]
      show lookupKey _ (if pos.qty - qty = 0 then _ else _) = _
      rw [if_neg hne, lookupKey_setKey_self]

/-- Witness for C3 on concrete inputs: selling an unheld symbol and
    overselling a held one are both rejected without mutation; a partial
    SELL of 4 out of 10 held shares at price 110 credits exactly
    440 - 0.44 and leaves 6 shares at the untouched average price 100. -/
theorem sell_semantics_witness :
    executeStep ⟨⟨0, [("X.NS".toList, ⟨10, 100⟩)]⟩, ⟨0, []⟩, []⟩
        Segment.india Side.SELL "Y.NS".toList 1 50
      = (⟨⟨0, [("X.NS".toList, ⟨10, 100⟩)]⟩, ⟨0, []⟩, []⟩, some TradeError.NoShares) ∧
    executeStep ⟨⟨0, [("X.NS".toList, ⟨10, 100⟩)]⟩, ⟨0, []⟩, []⟩
        Segment.india Side.SELL "X.NS".toList 11 50
      = (⟨⟨0, [("X.NS".toList, ⟨10, 100⟩)]⟩, ⟨0, []⟩, []⟩, some TradeError.NoShares) ∧
    (executeStep ⟨⟨0, [("X.NS".toList, ⟨10, 100⟩)]⟩, ⟨0, []⟩, []⟩
        Segment.india Side.SELL "X.NS".toList 4 110).2 = none ∧
    (getPort (executeStep ⟨⟨0, [("X.NS".toList, ⟨10, 100⟩)]⟩, ⟨0, []⟩, []⟩
        Segment.india Side.SELL "X.NS".toList 4 110).1 Segment.india).cash
      = 43956 / 100 ∧
    lookupKey (final_ticker Segment.india "X.NS".toList)
        (getPort (executeStep ⟨⟨0, [("X.NS".toList, ⟨10, 100⟩)]⟩, ⟨0, []⟩, []⟩
            Segment.india Side.SELL "X.NS".toList 4 110).1 Segment.india).holdings
      = some ⟨6, 100⟩ := by
  have hsell := (sell_semantics ⟨⟨0, [("X.NS".toList, ⟨10, 100⟩)]⟩, ⟨0, []⟩, []⟩
      Segment.india "X.NS".toList 4 110).2 ⟨10, 100⟩ rfl
  refine ⟨?_, ?_, ?_, ?_, ?_⟩
  · exact (sell_semantics ⟨⟨0, [("X.NS".toList, ⟨10, 100⟩)]⟩, ⟨0, []⟩, []⟩
      Segment.india "Y.NS".toList 1 50).1 rfl
  · exact ((sell_semantics ⟨⟨0, [("X.NS".toList, ⟨10, 100⟩)]⟩, ⟨0, []⟩, []⟩
      Segment.india "X.NS".toList 11 50).2 ⟨10, 100⟩ rfl).1 (by norm_num)
  · exact (hsell.2 (by norm_num)).1
  · have h := (hsell.2 (by norm_num)).2.1
    rw [h]
    norm_num [getPort]
  · have h := (hsell.2 (by norm_num)).2.2 (by norm_num)
    rw [h]
    norm_num

/-- C1 counterexample to the fee-inclusive claim: a first BUY of 10 shares
    at unit price 100 (total fee-inclusive cost 1001) records
    average_price = 100, the bare unit price — not total_cost/quantity
    = 1001/10. -/
theorem buy_average_fee_inclusive_cex :
    execute_trade { cash := 1000000, holdings := [] } Side.BUY "X.NS".toList 10 100
      = Except.ok { cash := 998999, holdings := [("X.NS".toList, ⟨10, 100⟩)] } ∧
    (100 : ℚ) ≠ (100 * 10 + 100 * 10 * (1 / 1000)) / 10 := by
  constructor
  · rw [execute_trade_buy_fresh { cash := 1000000, holdings := [] }
        "X.NS".toList 10 100 (by norm_num) rfl]
    norm_num [setKey]
  · norm_num

/-- C1 amended: the BUY average price blends the fee-exclusive gross
    `unit_price*quantity`, not the fee-inclusive total cost: if the symbol
    is held with quantity q0 and average a0, the new average is
    `(q0*a0 + unit_price*qty) / (q0 + qty)`; if not held, the new position's
    average_price is the bare `unit_price` (cash, by contrast, is debited
    fee-inclusively, see C2). -/
theorem buy_average_price (s : AppState) (m : Segment) (t : Ticker)
    (qty : ℤ) (lp : ℚ)
    (hge : lp * (qty : ℚ) + lp * (qty : ℚ) * (1 / 1000) ≤ (getPort s m).cash) :
    (∀ old : Position,
       lookupKey (final_ticker m t) (getPort s m).holdings = some old →
       lookupKey (final_ticker m t)
           (getPort (executeStep s m Side.BUY t qty lp).1 m).holdings
         = some ⟨old.qty + qty,
                 ((old.qty : ℚ) * old.avg_price + lp * (qty : ℚ))
                   / ((old.qty + qty : ℤ) : ℚ)⟩) ∧
    (lookupKey (final_ticker m t) (getPort s m).holdings = none →
       lookupKey (final_ticker m t)
           (getPort (executeStep s m Side.BUY t qty lp).1 m).holdings
         = some ⟨qty, lp⟩) := by
  constructor
  · intro old hl
    rw [executeStep_ok _ _ _ _ _ _ _ (execute_trade_buy_held _ _ _ _ old hge hl),
      getPort_setPort_self]
    exact lookupKey_setKey_self _ _ _
  · intro hnone
    rw [executeStep_ok _ _ _ _ _ _ _ (execute_trade_buy_fresh _ _ _ _ hge hnone),
      getPort_setPort_self]
    exact lookupKey_setKey_self _ _ _

/-- Witness for C1 (amended) on concrete inputs: a fresh BUY of 10 at 100
    from the default state yields average 100, and a second BUY of 10 at
    200 into a position of 10 at average 100 yields average
    (10*100 + 2000)/20 = 150 — both fee-exclusive. -/
theorem buy_average_price_witness :
    lookupKey (final_ticker Segment.india "X.NS".toList)
        (getPort (executeStep initial_trading Segment.india Side.BUY
            "X.NS".toList 10 100).1 Segment.india).holdings
      = some ⟨10, 100⟩ ∧
    lookupKey (final_ticker Segment.india "X.NS".toList)
        (getPort (executeStep ⟨⟨1000000, [("X.NS".toList, ⟨10, 100⟩)]⟩, ⟨0, []⟩, []⟩
            Segment.india Side.BUY "X.NS".toList 10 200).1 Segment.india).holdings
      = some ⟨20, 150⟩ := by
  constructor
  · exact (buy_average_price initial_trading Segment.india "X.NS".toList 10 100
      (by norm_num [getPort, initial_trading])).2 rfl
  · have h := (buy_average_price ⟨⟨1000000, [("X.NS".toList, ⟨10, 100⟩)]⟩, ⟨0, []⟩, []⟩
      Segment.india "X.NS".toList 10 200 (by norm_num [getPort])).1 ⟨10, 100⟩ rfl
    rw [h]
    norm_num

/-- C7 counterexample: a BUY at quoted price 0 is not rejected — from the
    default state the trade executes and creates a holding, so no
    InvalidPrice (or any input) validation happens before state change. -/
theorem no_price_validation_cex :
    (executeStep initial_trading Segment.globalMkt Side.BUY ['X'] 1 0).2 = none ∧
    (executeStep initial_trading Segment.globalMkt Side.BUY ['X'] 1 0).1
      ≠ initial_trading := by
  have hr := execute_trade_buy_fresh (getPort initial_trading Segment.globalMkt)
      (final_ticker Segment.globalMkt ['X']) 1 0
      (by norm_num [getPort, initial_trading]) rfl
  rw [executeStep_ok _ _ _ _ _ _ _ hr]
  refine ⟨rfl, fun hcontra => ?_⟩
  have := congrArg (fun st => st.globalMkt.holdings) hcontra
  simp [setPort, initial_trading, setKey, getPort] at this

/-- C7 amended: the EXECUTE block performs no input validation of its own —
    there is no InvalidQuantity or InvalidPrice rejection path (quantity
    positivity comes only from the Qty widget's lower bound of 1, and a
    missing quote only prevents the EXECUTE button from rendering): a BUY
    at any non-positive unit price against nonnegative cash and nonnegative
    quantity is accepted and mutates holdings. -/
theorem nonpositive_price_buy_accepted (s : AppState) (m : Segment) (t : Ticker)
    (qty : ℤ) (lp : ℚ) (hq : 0 ≤ qty) (hlp : lp ≤ 0)
    (hcash : 0 ≤ (getPort s m).cash) :
    (executeStep s m Side.BUY t qty lp).2 = none ∧
    ∃ posn : Position,
      lookupKey (final_ticker m t)
          (getPort (executeStep s m Side.BUY t qty lp).1 m).holdings = some posn := by
  have hval : lp * (qty : ℚ) ≤ 0 :=
    mul_nonpos_iff.mpr (Or.inr ⟨hlp, by exact_mod_cast hq⟩)
  have hge : lp * (qty : ℚ) + lp * (qty : ℚ) * (1 / 1000) ≤ (getPort s m).cash := by
    nlinarith
  rcases hl : lookupKey (final_ticker m t) (getPort s m).holdings with _ | old
  · rw [executeStep_ok _ _ _ _ _ _ _ (execute_trade_buy_fresh _ _ _ _ hge hl),
      getPort_setPort_self]
    exact ⟨rfl, _, lookupKey_setKey_self _ _ _⟩
  · rw [executeStep_ok _ _ _ _ _ _ _ (execute_trade_buy_held _ _ _ _ old hge hl),
      getPort_setPort_self]
    exact ⟨rfl, _, lookupKey_setKey_self _ _ _⟩

/-- Witness for C7 (amended): the price-0 BUY of one share from the default
    state goes through and the holding exists afterwards. -/
theorem nonpositive_price_buy_accepted_witness :
    (executeStep initial_trading Segment.globalMkt Side.BUY ['X'] 1 0).2 = none ∧
    ∃ posn : Position,
      lookupKey (final_ticker Segment.globalMkt ['X'])
          (getPort (executeStep initial_trading Segment.globalMkt Side.BUY ['X'] 1 0).1
              Segment.globalMkt).holdings = some posn :=
  nonpositive_price_buy_accepted initial_trading Segment.globalMkt ['X'] 1 0
    (by norm_num) (by norm_num) (by norm_num [getPort, initial_trading])

/-- C6 counterexample to unconditional invariant preservation: the quoted
    price is nowhere validated (see C7), and at a negative quote a committed
    trade breaks `cash ≥ 0`.  From an invariant-satisfying india portfolio
    (cash 0, holding 10 shares of X.NS), a SELL of all 10 at quoted price
    -100 commits (no error) and leaves cash = 0 + (-1000 - (-1)) = -999,
    so the invariant does not hold after the trade. -/
theorem sell_negative_price_cash_cex :
    Invariant (getPort
      (⟨⟨0, [("X.NS".toList, ⟨10, 100⟩)]⟩, ⟨0, []⟩, []⟩ : AppState) Segment.india) ∧
    (executeStep ⟨⟨0, [("X.NS".toList, ⟨10, 100⟩)]⟩, ⟨0, []⟩, []⟩
        Segment.india Side.SELL "X.NS".toList 10 (-100)).2 = none ∧
    (getPort (executeStep ⟨⟨0, [("X.NS".toList, ⟨10, 100⟩)]⟩, ⟨0, []⟩, []⟩
        Segment.india Side.SELL "X.NS".toList 10 (-100)).1 Segment.india).cash
      = -999 ∧
    ¬ Invariant (getPort (executeStep ⟨⟨0, [("X.NS".toList, ⟨10, 100⟩)]⟩, ⟨0, []⟩, []⟩
        Segment.india Side.SELL "X.NS".toList 10 (-100)).1 Segment.india) := by
  have hinv : Invariant (getPort
      (⟨⟨0, [("X.NS".toList, ⟨10, 100⟩)]⟩, ⟨0, []⟩, []⟩ : AppState) Segment.india) := by
    refine ⟨le_refl 0, by decide, fun k pos hk => ?_⟩
    have hk' : lookupKey k [("X.NS".toList, (⟨10, 100⟩ : Position))] = some pos := hk
    by_cases hkt : k = "X.NS".toList
    · subst hkt
      rw [lookupKey_cons_self] at hk'
      cases hk'
      decide
    · rw [lookupKey_cons_ne _ _ _ _ hkt, lookupKey] at hk'
      cases hk'
  have hr := execute_trade_sell_ok
      (getPort (⟨⟨0, [("X.NS".toList, ⟨10, 100⟩)]⟩, ⟨0, []⟩, []⟩ : AppState) Segment.india)
      (final_ticker Segment.india "X.NS".toList) 10 (-100) ⟨10, 100⟩ rfl (le_refl 10)
  rw [executeStep_ok _ _ _ _ _ _ _ hr, getPort_setPort_self]
  have hcash : ((0 : ℚ) + ((-100) * ((10 : ℤ) : ℚ) - (-100) * ((10 : ℤ) : ℚ) * (1 / 1000)))
      = -999 := by norm_num
  refine ⟨hinv, rfl, hcash, fun hbad => ?_⟩
  have h0 : (0 : ℚ) ≤ (0 : ℚ) + ((-100) * ((10 : ℤ) : ℚ) - (-100) * ((10 : ℤ) : ℚ) * (1 / 1000)) :=
    hbad.1
  rw [hcash] at h0
  norm_num at h0

/-- C6 amended: every committed trade with positive quantity (the Qty widget
    enforces 1..10000) and a nonnegative quoted price preserves the
    invariant `cash ≥ 0 ∧ every held quantity > 0`, and a SELL of exactly
    the whole held quantity commits and removes the symbol's key from
    holdings entirely; a negative quoted price — which no code path rules
    out — is excluded, since there a committed SELL can drive cash below
    zero (see the counterexample above). -/
theorem trade_preserves_invariant (s : AppState) (m : Segment) (act : Side)
    (t : Ticker) (qty : ℤ) (lp : ℚ)
    (hq : 1 ≤ qty) (hp : 0 ≤ lp) (hinv : Invariant (getPort s m)) :
    Invariant (getPort (executeStep s m act t qty lp).1 m) ∧
    (∀ pos : Position,
       act = Side.SELL →
       lookupKey (final_ticker m t) (getPort s m).holdings = some pos →
       pos.qty = qty →
       (executeStep s m act t qty lp).2 = none ∧
       lookupKey (final_ticker m t)
           (getPort (executeStep s m act t qty lp).1 m).holdings = none) := by
  obtain ⟨hcash, hnd, hqty⟩ := hinv
  have hq0 : (0 : ℚ) ≤ (qty : ℚ) := by
    have : (0 : ℤ) ≤ qty := le_trans zero_le_one hq
    exact_mod_cast this
  cases act with
  | BUY =>
      refine ⟨?_, fun pos hact => absurd hact (by decide)⟩
      by_cases hge : lp * (qty : ℚ) + lp * (qty : ℚ) * (1 / 1000) ≤ (getPort s m).cash
      · rcases hl : lookupKey (final_ticker m t) (getPort s m).holdings with _ | old
        · rw [executeStep_ok _ _ _ _ _ _ _ (execute_trade_buy_fresh _ _ _ _ hge hl),
            getPort_setPort_self]
          refine ⟨sub_nonneg.mpr hge, nodup_setKey _ _ _ hnd, ?_⟩
          intro k pos hk
          by_cases hkt : k = final_ticker m t
          · subst hkt
            rw [lookupKey_setKey_self] at hk
            cases hk
            exact lt_of_lt_of_le Int.zero_lt_one hq
          · rw [lookupKey_setKey_ne _ _ _ _ hkt] at hk
            exact hqty k pos hk
        · rw [executeStep_ok _ _ _ _ _ _ _ (execute_trade_buy_held _ _ _ _ old hge hl),
            getPort_setPort_self]
          refine ⟨sub_nonneg.mpr hge, nodup_setKey _ _ _ hnd, ?_⟩
          intro k pos hk
          by_cases hkt : k = final_ticker m t
          · subst hkt
            rw [lookupKey_setKey_self] at hk
            cases hk
            show 0 < old.qty + qty
            have hold_pos : 0 < old.qty := hqty _ old hl
            omega
          · rw [lookupKey_setKey_ne _ _ _ _ hkt] at hk
            exact hqty k pos hk
      · rw [executeStep_err _ _ _ _ _ _ _
          (execute_trade_buy_reject _ _ _ _ (not_le.mp hge))]
        exact ⟨hcash, hnd, hqty⟩
  | SELL =>
      rcases hl : lookupKey (final_ticker m t) (getPort s m).holdings with _ | pos₀
      · rw [executeStep_err _ _ _ _ _ _ _ (execute_trade_sell_not_held _ _ _ _ hl)]
        refine ⟨⟨hcash, hnd, hqty⟩, fun pos _ hpos => ?_⟩
        cases hpos
      · by_cases hge : qty ≤ pos₀.qty
        · rw [executeStep_ok _ _ _ _ _ _ _ (execute_trade_sell_ok _ _ _ _ pos₀ hl hge),
            getPort_setPort_self]
          have hproc : 0 ≤ lp * (qty : ℚ) - lp * (qty : ℚ) * (1 / 1000) := by
            nlinarith [mul_nonneg hp hq0]
          constructor
          · refine ⟨by positivity, ?_, ?_⟩
            · by_cases hz : pos₀.qty - qty = 0
              · rw [if_pos hz]
                exact nodup_delKey _ _ hnd
              · rw [if_neg hz]
                exact nodup_setKey _ _ _ hnd
            · intro k pos hk
              by_cases hz : pos₀.qty - qty = 0
              · rw [if_pos hz] at hk
                by_cases hkt : k = final_ticker m t
                · subst hkt
                  rw [lookupKey_delKey_self _ _ hnd] at hk
                  cases hk
                · rw [lookupKey_delKey_ne _ _ _ hkt] at hk
                  exact hqty k pos hk
              · rw [if_neg hz] at hk
                by_cases hkt : k = final_ticker m t
                · subst hkt
                  rw [lookupKey_setKey_self] at hk
                  cases hk
                  show 0 < pos₀.qty - qty
                  omega
                · rw [lookupKey_setKey_ne _ _ _ _ hkt] at hk
                  exact hqty k pos hk
          · intro pos hact hpos hq_eq
            injection hpos with hpp
            subst hpp
            have hz : pos₀.qty - qty = 0 := by omega
            refine ⟨rfl, ?_⟩
            rw [if_pos hz]
            exact lookupKey_delKey_self _ _ hnd
        · rw [executeStep_err _ _ _ _ _ _ _
            (execute_trade_sell_short _ _ _ _ pos₀ hl (not_le.mp hge))]
          refine ⟨⟨hcash, hnd, hqty⟩, fun pos _ hpos hq_eq => ?_⟩
          injection hpos with hpp
          subst hpp
          exact absurd hq_eq (by omega)

/-- Witness for C6: from an india portfolio holding exactly 10 shares of
    X.NS, a SELL of all 10 at price 110 commits, preserves the invariant,
    and removes the X.NS key from holdings entirely. -/
theorem trade_preserves_invariant_witness :
    Invariant (getPort (executeStep ⟨⟨0, [("X.NS".toList, ⟨10, 100⟩)]⟩, ⟨0, []⟩, []⟩
        Segment.india Side.SELL "X.NS".toList 10 110).1 Segment.india) ∧
    (executeStep ⟨⟨0, [("X.NS".toList, ⟨10, 100⟩)]⟩, ⟨0, []⟩, []⟩
        Segment.india Side.SELL "X.NS".toList 10 110).2 = none ∧
    lookupKey (final_ticker Segment.india "X.NS".toList)
        (getPort (executeStep ⟨⟨0, [("X.NS".toList, ⟨10, 100⟩)]⟩, ⟨0, []⟩, []⟩
            Segment.india Side.SELL "X.NS".toList 10 110).1 Segment.india).holdings
      = none := by
  have hinv : Invariant (getPort
      (⟨⟨0, [("X.NS".toList, ⟨10, 100⟩)]⟩, ⟨0, []⟩, []⟩ : AppState) Segment.india) := by
    refine ⟨le_refl 0, by decide, fun k pos hk => ?_⟩
    have hk' : lookupKey k [("X.NS".toList, (⟨10, 100⟩ : Position))] = some pos := hk
    by_cases hkt : k = "X.NS".toList
    · subst hkt
      rw [lookupKey_cons_self] at hk'
      cases hk'
      decide
    · rw [lookupKey_cons_ne _ _ _ _ hkt, lookupKey] at hk'
      cases hk'
  have h := trade_preserves_invariant ⟨⟨0, [("X.NS".toList, ⟨10, 100⟩)]⟩, ⟨0, []⟩, []⟩
      Segment.india Side.SELL "X.NS".toList 10 110 (by norm_num) (by norm_num) hinv
  have h2 := h.2 ⟨10, 100⟩ rfl rfl rfl
  exact ⟨h.1, h2.1, h2.2⟩
